import Mathlib

/-!
Verification of the layered-timeline storage engine (pageserver) against its
natural-language specification.  The definitions below are a shallow embedding
of `pageserver/src/layered_repository/timeline.rs` and
`pageserver/src/layered_repository/inmemory_layer.rs`.  LSNs (`u64`) and keys
(opaque ordered 128-bit identifiers) are modelled as `Nat`; page bytes are
abstracted to `Nat` identifiers; interaction with collaborators (WAL redo,
layer files) is modelled by explicit outcome constructors or oracle functions.
-/

/- ===================== Garbage collection (LayeredTimeline::gc) ============ -/

/-- A historic layer as seen by `gc`: its half-open key range and LSN range,
whether it is incremental (delta) or not (image), and whether it is an
in-memory layer still being flushed.  For an image layer the LSN range is
`[lsn, lsn+1)` and its LSN is `lsn_start`. -/
structure LayerDesc where
  key_start : Nat
  key_end : Nat
  lsn_start : Nat
  lsn_end : Nat
  is_incremental : Bool
  is_in_memory : Bool
deriving DecidableEq, Repr

/-- Modelled from the spec: `LayerMap::image_layer_exists` (layer_map.rs is not
among the provided sources).  Spec 4.E: "image_layer_exists(key_range,
lsn_range): whether an image layer at some LSN in lsn_range covers the whole
key_range".  Ranges are half-open, following the data model of spec section 3
and the Rust `Range` passed at the call site in `LayeredTimeline::gc`. -/
def image_layer_exists (layers : List LayerDesc) (ks ke lo hi : Nat) : Bool :=
  layers.any fun l =>
    !l.is_incremental && decide (l.key_start ≤ ks) && decide (ke ≤ l.key_end)
      && decide (lo ≤ l.lsn_start) && decide (l.lsn_start < hi)

/-- The GC-relevant fields of `GcInfo`. -/
structure GcInfoModel where
  retain_lsns : List Nat
  horizon_cutoff : Nat
  pitr_cutoff : Nat
deriving DecidableEq, Repr

/-- The GC-relevant state of a `LayeredTimeline`: the layer map (historic
layers plus the open/frozen in-memory layers, which GC never touches),
the published cutoff, the durability watermark and the `gc_info`. -/
structure GcTimelineState where
  historic_layers : List LayerDesc
  open_layer : Option LayerDesc
  frozen_layers : List LayerDesc
  latest_gc_cutoff_lsn : Nat
  disk_consistent_lsn : Nat
  gc_info : GcInfoModel
deriving DecidableEq, Repr

/-- The per-layer classification made by the `'outer` loop of
`LayeredTimeline::gc`, mirroring the `GcResult` counters. -/
inductive GcDecision where
  | skippedInMemory
  | keptByCutoff
  | keptByPitr
  | keptByBranches
  | keptNotUpdated
  | removed
deriving DecidableEq, Repr

/-- One iteration of the GC scan over historic layers, embedding the chain of
`continue 'outer` tests in `LayeredTimeline::gc`. -/
def gc_layer_decision (historic : List LayerDesc)
    (horizon_cutoff pitr_cutoff new_gc_cutoff : Nat)
    (retain_lsns : List Nat) (l : LayerDesc) : GcDecision :=
  if l.is_in_memory then .skippedInMemory
  else if horizon_cutoff < l.lsn_end then .keptByCutoff
  else if pitr_cutoff < l.lsn_end then .keptByPitr
  else if retain_lsns.any (fun r => decide (l.lsn_start ≤ r)) then .keptByBranches
  else if !image_layer_exists historic l.key_start l.key_end l.lsn_end new_gc_cutoff then
    .keptNotUpdated
  else .removed

/-- The cutoff `gc` computes: `min(min(gc_info.horizon_cutoff,
disk_consistent_lsn), gc_info.pitr_cutoff)` (the local `horizon_cutoff`
variable of `gc` clamps the configured horizon by `disk_consistent_lsn`). -/
def gc_new_cutoff (s : GcTimelineState) : Nat :=
  min (min s.gc_info.horizon_cutoff s.disk_consistent_lsn) s.gc_info.pitr_cutoff

/-- `LayeredTimeline::gc`: compute the cutoffs (the local `horizon_cutoff` is
`min(gc_info.horizon_cutoff, disk_consistent_lsn)` and `new_gc_cutoff` is its
`min` with `pitr_cutoff`, here abbreviated `gc_new_cutoff`), return early when
the cutoff does not advance, otherwise publish `latest_gc_cutoff_lsn`,
classify every historic layer and remove (from map and disk) the ones
classified `removed`.  Returns the new state with the list of removed
layers. -/
def gc (s : GcTimelineState) : GcTimelineState × List LayerDesc :=
  if s.latest_gc_cutoff_lsn ≥ gc_new_cutoff s then (s, [])
  else
    ({ s with
        latest_gc_cutoff_lsn := gc_new_cutoff s,
        historic_layers :=
          s.historic_layers.filter fun l =>
            !decide (gc_layer_decision s.historic_layers
              (min s.gc_info.horizon_cutoff s.disk_consistent_lsn)
              s.gc_info.pitr_cutoff (gc_new_cutoff s)
              s.gc_info.retain_lsns l = .removed) },
      s.historic_layers.filter fun l =>
        decide (gc_layer_decision s.historic_layers
          (min s.gc_info.horizon_cutoff s.disk_consistent_lsn)
          s.gc_info.pitr_cutoff (gc_new_cutoff s)
          s.gc_info.retain_lsns l = .removed))

/-- The removal condition exactly as claim C1 words it: conditions (1) and (2)
against the cutoffs, (3) `lsn_range.start` strictly above every retain LSN, and
(4) an image layer covering the whole key range at some LSN in the
left-open/right-closed interval `(lsn_range.end, new_gc_cutoff]`. -/
def gc_removes_per_claim (s : GcTimelineState) (l : LayerDesc) : Prop :=
  let new_gc_cutoff := gc_new_cutoff s
  l.lsn_end ≤ min s.gc_info.horizon_cutoff s.disk_consistent_lsn ∧
  l.lsn_end ≤ s.gc_info.pitr_cutoff ∧
  (∀ r ∈ s.gc_info.retain_lsns, r < l.lsn_start) ∧
  (∃ img ∈ s.historic_layers, img.is_incremental = false ∧
    img.key_start ≤ l.key_start ∧ l.key_end ≤ img.key_end ∧
    l.lsn_end < img.lsn_start ∧ img.lsn_start ≤ new_gc_cutoff)

/-- A delta layer over the whole key space with LSN range `[0, 100)`. -/
def gcCexDelta : LayerDesc :=
  { key_start := 0, key_end := 100, lsn_start := 0, lsn_end := 100,
    is_incremental := true, is_in_memory := false }

/-- An image layer at LSN 100 covering the whole key space. -/
def gcCexImage : LayerDesc :=
  { key_start := 0, key_end := 100, lsn_start := 100, lsn_end := 101,
    is_incremental := false, is_in_memory := false }

/-- A GC state where the image layer sits exactly at the delta's
`lsn_range.end` and both cutoffs are 250. -/
def gcCexState : GcTimelineState :=
  { historic_layers := [gcCexDelta, gcCexImage],
    open_layer := none,
    frozen_layers := [],
    latest_gc_cutoff_lsn := 0,
    disk_consistent_lsn := 1000,
    gc_info := { retain_lsns := [], horizon_cutoff := 250, pitr_cutoff := 250 } }

theorem gc_decision_eq_removed_iff (historic : List LayerDesc)
    (hc pc ngc : Nat) (retain : List Nat) (l : LayerDesc) :
    gc_layer_decision historic hc pc ngc retain l = .removed ↔
      l.is_in_memory = false ∧ l.lsn_end ≤ hc ∧ l.lsn_end ≤ pc ∧
      (∀ r ∈ retain, r < l.lsn_start) ∧
      image_layer_exists historic l.key_start l.key_end l.lsn_end ngc = true := by
  unfold gc_layer_decision
  split_ifs with h1 h2 h3 h4 h5 <;>
    simp_all [List.any_eq_true, Nat.not_le, Nat.not_lt, Nat.lt_iff_add_one_le]

/-- Claim C1 (counterexample): in `gcCexState` the run of `gc` removes the
delta layer from map and disk, yet the claim's condition (4) fails for it:
the only covering image layer sits at LSN 100, which is not in the claim's
interval `(100, 250]`.  So removal is not equivalent to the claim's four
conditions. -/
theorem gc_c1_counterexample :
    gcCexDelta ∈ (gc gcCexState).2 ∧ ¬ gc_removes_per_claim gcCexState gcCexDelta := by
  constructor
  · decide
  · intro h
    rcases h with ⟨-, -, -, img, hmem, -, -, -, hlt, hle⟩
    revert hlt hle
    fin_cases hmem <;> decide

/-- Claim C1 (amended): in a run of `gc` that advances the cutoff, a historic
layer `L` is removed from the map and disk if and only if it is on disk (not
in-memory) and (1) `L.lsn_range.end ≤ min(gc_info.horizon_cutoff,
disk_consistent_lsn)`, (2) `L.lsn_range.end ≤ pitr_cutoff`, (3) every
`retain_lsn` is strictly below `L.lsn_range.start`, and (4) an image layer
covers the whole of `L.key_range` at some LSN in the half-open interval
`[L.lsn_range.end, new_gc_cutoff)`; the open and frozen in-memory layers are
never touched. -/
theorem gc_removes_iff_c1 (s : GcTimelineState) (l : LayerDesc)
    (hadv : s.latest_gc_cutoff_lsn < gc_new_cutoff s) :
    (l ∈ (gc s).2 ↔
      l ∈ s.historic_layers ∧ l.is_in_memory = false ∧
      l.lsn_end ≤ min s.gc_info.horizon_cutoff s.disk_consistent_lsn ∧
      l.lsn_end ≤ s.gc_info.pitr_cutoff ∧
      (∀ r ∈ s.gc_info.retain_lsns, r < l.lsn_start) ∧
      image_layer_exists s.historic_layers l.key_start l.key_end l.lsn_end
        (gc_new_cutoff s) = true) ∧
    (l ∈ (gc s).1.historic_layers ↔ l ∈ s.historic_layers ∧ l ∉ (gc s).2) ∧
    (gc s).1.open_layer = s.open_layer ∧
    (gc s).1.frozen_layers = s.frozen_layers := by
  have hne : ¬ s.latest_gc_cutoff_lsn ≥ gc_new_cutoff s := Nat.not_le_of_lt hadv
  unfold gc
  rw [if_neg hne]
  refine ⟨?_, ?_, rfl, rfl⟩
  all_goals
    simp only [List.mem_filter, decide_eq_true_eq, gc_decision_eq_removed_iff,
      Bool.not_eq_true', decide_eq_false_iff_not]
  all_goals tauto

theorem gc_removes_iff_c1_witness :
    gcCexState.latest_gc_cutoff_lsn < gc_new_cutoff gcCexState ∧
    (gcCexDelta ∈ (gc gcCexState).2 ↔
      gcCexDelta ∈ gcCexState.historic_layers ∧ gcCexDelta.is_in_memory = false ∧
      gcCexDelta.lsn_end ≤ min gcCexState.gc_info.horizon_cutoff gcCexState.disk_consistent_lsn ∧
      gcCexDelta.lsn_end ≤ gcCexState.gc_info.pitr_cutoff ∧
      (∀ r ∈ gcCexState.gc_info.retain_lsns, r < gcCexDelta.lsn_start) ∧
      image_layer_exists gcCexState.historic_layers gcCexDelta.key_start gcCexDelta.key_end
        gcCexDelta.lsn_end (gc_new_cutoff gcCexState) = true) :=
  ⟨by decide, (gc_removes_iff_c1 gcCexState gcCexDelta (by decide)).1⟩

/-- Claim C4: `gc` never removes a layer whose `lsn_range.start` is at or
below some `retain_lsn` in `gc_info.retain_lsns`; in particular a layer with a
retain LSN inside `[lsn_range.start, lsn_range.end)` is always kept. -/
theorem gc_respects_retain_lsn_c4 (s : GcTimelineState) (l : LayerDesc) (r : Nat)
    (hr : r ∈ s.gc_info.retain_lsns) (hle : l.lsn_start ≤ r) :
    l ∉ (gc s).2 := by
  unfold gc
  split
  · simp
  · intro hmem
    rcases List.mem_filter.mp hmem with ⟨-, hdec⟩
    rw [decide_eq_true_eq, gc_decision_eq_removed_iff] at hdec
    exact absurd hle (Nat.not_le_of_lt (hdec.2.2.2.1 r hr))

/-- A GC state with a single retain LSN 150 inside the delta's LSN range. -/
def gcRetainState : GcTimelineState :=
  { historic_layers := [gcCexDelta, gcCexImage],
    open_layer := none,
    frozen_layers := [],
    latest_gc_cutoff_lsn := 0,
    disk_consistent_lsn := 1000,
    gc_info := { retain_lsns := [50], horizon_cutoff := 250, pitr_cutoff := 250 } }

theorem gc_respects_retain_lsn_c4_witness :
    (50 ∈ gcRetainState.gc_info.retain_lsns ∧ gcCexDelta.lsn_start ≤ 50) ∧
    gcCexDelta ∉ (gc gcRetainState).2 :=
  ⟨by decide, gc_respects_retain_lsn_c4 gcRetainState gcCexDelta 50 (by decide) (by decide)⟩

/-- Claim C7: `latest_gc_cutoff_lsn` is monotone under `gc`: it becomes
`new_gc_cutoff = min(horizon_cutoff, pitr_cutoff)` exactly when that value is
strictly above the current cutoff, and otherwise `gc` returns early leaving
the whole state unchanged and removing no layer. -/
theorem gc_cutoff_monotone_c7 (s : GcTimelineState) :
    s.latest_gc_cutoff_lsn ≤ (gc s).1.latest_gc_cutoff_lsn ∧
    (gc s).1.latest_gc_cutoff_lsn =
      (if s.latest_gc_cutoff_lsn < gc_new_cutoff s then gc_new_cutoff s
       else s.latest_gc_cutoff_lsn) ∧
    (¬ s.latest_gc_cutoff_lsn < gc_new_cutoff s → (gc s).1 = s ∧ (gc s).2 = []) := by
  unfold gc
  simp only [gc_new_cutoff]
  by_cases h : s.latest_gc_cutoff_lsn ≥ min (min s.gc_info.horizon_cutoff s.disk_consistent_lsn) s.gc_info.pitr_cutoff
  · rw [if_pos h]
    refine ⟨Nat.le_refl _, ?_, fun _ => ⟨rfl, rfl⟩⟩
    rw [if_neg (Nat.not_lt_of_le h)]
  · have hlt : s.latest_gc_cutoff_lsn < min (min s.gc_info.horizon_cutoff s.disk_consistent_lsn) s.gc_info.pitr_cutoff :=
      Nat.lt_of_not_le h
    rw [if_neg h]
    exact ⟨Nat.le_of_lt hlt, by rw [if_pos hlt], fun hc => absurd hlt hc⟩

/- ===================== Read path entry (LayeredTimeline::get) ============== -/

/-- Outcome of the materialized-page-cache check at the top of
`LayeredTimeline::get`: return the cached image directly, panic, or proceed to
layer traversal with an optional cached base image seeded into the
`ValueReconstructState`. -/
inductive GetCacheStep where
  | returnCached (img : Nat)
  | panicked
  | proceed (cached : Option (Nat × Nat))
deriving DecidableEq, Repr

/-- The `match cached_lsn.cmp(&lsn)` step of `LayeredTimeline::get`, applied to
the result of `lookup_cached_page` (the most recent cached page with LSN at or
below the request, if any). -/
def get_cache_step (lsn : Nat) (lookup : Option (Nat × Nat)) : GetCacheStep :=
  match lookup with
  | some (cached_lsn, cached_img) =>
    if cached_lsn < lsn then .proceed (some (cached_lsn, cached_img))
    else if cached_lsn = lsn then .returnCached cached_img
    else .panicked
  | none => .proceed none

/-- Result of a `get` call.  `ok` carries returned page bytes; traversal and
WAL redo are abstracted by the `traverse` oracle argument of `get_model`. -/
inductive GetOutcome where
  | ok (img : Nat)
  | panicked
  | notFound
deriving DecidableEq, Repr

/-- `LayeredTimeline::get`: consult the materialized-page cache, then (only in
the `proceed` case) run `get_reconstruct_data` plus `reconstruct_value`,
abstracted as the oracle `traverse` applied to the cached image seed. -/
def get_model (lsn : Nat) (lookup : Option (Nat × Nat))
    (traverse : Option (Nat × Nat) → GetOutcome) : GetOutcome :=
  match get_cache_step lsn lookup with
  | .returnCached img => .ok img
  | .panicked => .panicked
  | .proceed cached => traverse cached

/-- Claim C10: when the materialized-page cache returns an image at exactly
the requested LSN, `get` returns it immediately — the result does not depend
on the layer-traversal/WAL-redo oracle at all — and when the cache returns an
image with LSN greater than the requested LSN, `get` panics. -/
theorem get_cache_exact_hit_c10 (lsn cached_lsn img : Nat)
    (hlookup_exact : cached_lsn = lsn ∨ lsn < cached_lsn) :
    ∀ traverse, get_model lsn (some (cached_lsn, img)) traverse =
      (if cached_lsn = lsn then .ok img else .panicked) := by
  intro traverse
  rcases hlookup_exact with h | h
  · subst h
    simp [get_model, get_cache_step]
  · rw [if_neg (Nat.ne_of_gt h)]
    have h1 : ¬ cached_lsn < lsn := Nat.not_lt_of_lt h
    have h2 : ¬ cached_lsn = lsn := Nat.ne_of_gt h
    simp [get_model, get_cache_step, h1, h2]

theorem get_cache_exact_hit_c10_witness :
    ((7 = 7 ∨ (7 : Nat) < 7) ∧
      ∀ traverse, get_model 7 (some (7, 42)) traverse =
        (if 7 = 7 then .ok 42 else .panicked)) ∧
    (((9 : Nat) = 7 ∨ (7 : Nat) < 9) ∧
      ∀ traverse, get_model 7 (some (9, 42)) traverse =
        (if 9 = 7 then .ok 42 else .panicked)) :=
  ⟨⟨Or.inl rfl, get_cache_exact_hit_c10 7 7 42 (Or.inl rfl)⟩,
   ⟨Or.inr (by decide), get_cache_exact_hit_c10 7 9 42 (Or.inr (by decide))⟩⟩

/- ============ LSN scope check and the page-service read entry (C2) ========= -/

/-- Read-path errors distinguished by the claims. -/
inductive ReadError where
  | lsnOutOfScope
deriving DecidableEq, Repr

/-- `LayeredTimeline::check_lsn_is_in_scope`: `ensure!(lsn >=
latest_gc_cutoff_lsn)`, failing with the "earlier than latest GC horizon"
error otherwise. -/
def check_lsn_is_in_scope (lsn latest_gc_cutoff_lsn : Nat) : Except ReadError Unit :=
  if lsn ≥ latest_gc_cutoff_lsn then .ok () else .error .lsnOutOfScope

/-- Modelled from the spec: the page-service read entry point is not among the
provided sources; per spec 4.G step 1 ("Reject if request_lsn <
latest_gc_cutoff_lsn") it validates the request LSN with
`check_lsn_is_in_scope` before calling `get`. -/
def read_request (lsn latest_gc_cutoff_lsn : Nat) (lookup : Option (Nat × Nat))
    (traverse : Option (Nat × Nat) → GetOutcome) : Except ReadError GetOutcome :=
  match check_lsn_is_in_scope lsn latest_gc_cutoff_lsn with
  | .error e => .error e
  | .ok _ => .ok (get_model lsn lookup traverse)

/-- Claim C2: every read at `request_lsn < latest_gc_cutoff_lsn` is rejected
with the scope error, whatever the cache and the layers hold — the outcome is
independent of both oracles, so no layer is consulted and no such read
succeeds. -/
theorem read_below_cutoff_rejected_c2 (lsn latest_gc_cutoff_lsn : Nat)
    (hlt : lsn < latest_gc_cutoff_lsn) :
    ∀ lookup traverse,
      read_request lsn latest_gc_cutoff_lsn lookup traverse =
        .error .lsnOutOfScope := by
  intro lookup traverse
  unfold read_request check_lsn_is_in_scope
  rw [if_neg (Nat.not_le_of_lt hlt)]

theorem read_below_cutoff_rejected_c2_witness :
    (3 : Nat) < 10 ∧
    ∀ lookup traverse,
      read_request 3 10 lookup traverse = .error .lsnOutOfScope :=
  ⟨by decide, read_below_cutoff_rejected_c2 3 10 (by decide)⟩

/- ======= Reconstruction: reconstruct_value and InMemoryLayer (C3) ========== -/

/-- A WAL record; only its `will_init` flag matters to reconstruction. -/
structure WALRecordM where
  will_init : Bool
deriving DecidableEq, Repr

/-- The state accumulated by layer traversal: WAL records (newest first, as
collected) and an optional base image with its LSN. -/
structure ValueReconstructStateM where
  records : List (Nat × WALRecordM)
  img : Option (Nat × Nat)
deriving DecidableEq, Repr

/-- Result of `LayeredTimeline::reconstruct_value`; the call to the WAL-redo
collaborator is abstracted as the `redoCall` constructor carrying its
arguments. -/
inductive ReconstructOut where
  | image (img : Nat)
  | baseImageNotFound
  | redoCall (base : Option Nat) (records : List (Nat × WALRecordM))
deriving DecidableEq, Repr

/-- `LayeredTimeline::reconstruct_value`: reverse the records into ascending
LSN order; with no records return the image or fail; with records but neither
an image nor a `will_init` oldest record, fail; otherwise call WAL redo. -/
def reconstruct_value (data : ValueReconstructStateM) : ReconstructOut :=
  match data.records.reverse with
  | [] =>
    match data.img with
    | some (_, img) => .image img
    | none => .baseImageNotFound
  | (l0, r0) :: rest =>
    if data.img.isNone && !r0.will_init then .baseImageNotFound
    else .redoCall (data.img.map (fun p => p.2)) ((l0, r0) :: rest)

/-- A page version of the in-memory layer (`inmemory_layer.rs`): an optional
full page image and/or an optional WAL record. -/
structure PageVersionM where
  page_image : Option Nat
  record : Option WALRecordM
deriving DecidableEq, Repr

/-- Result of `InMemoryLayer::get_page_at_lsn`; the WAL-redo call is
abstracted as the `redoCall` constructor, and `zeroPage` is the static 8 KiB
`ZERO_PAGE` returned with a warning. -/
inductive GetPageResult where
  | page (img : Nat)
  | zeroPage
  | redoCall (base : Option Nat) (records : List WALRecordM)
  | errNoVersion
  | errNoBaseImage
deriving DecidableEq, Repr

/-- The backward scan of `InMemoryLayer::get_page_at_lsn` over the page
versions of the requested block at LSNs at or below the request, newest first:
collect records until an image or a `will_init` record is found, tracking
`need_base_image_lsn`; a version with neither image nor record is an error. -/
def scan_page_versions :
    List (Nat × PageVersionM) → List WALRecordM → Option Nat →
      Option (List WALRecordM × Option Nat × Option Nat)
  | [], records, need_base_image_lsn => some (records, none, need_base_image_lsn)
  | (entry_lsn, pv) :: rest, records, _ =>
    match pv.page_image with
    | some img => some (records, some img, none)
    | none =>
      match pv.record with
      | some rec =>
        if rec.will_init then some (records ++ [rec], none, none)
        else scan_page_versions rest (records ++ [rec]) (some entry_lsn)
      | none => none

/-- `InMemoryLayer::get_page_at_lsn`: the page-version map is modelled as an
(ascending) association list from `(blknum, lsn)` to page versions; the
`range(..=(blknum, lsn)).next_back()` iteration is its filtered reversal. -/
def get_page_at_lsn (page_versions : List ((Nat × Nat) × PageVersionM))
    (blknum lsn : Nat) : GetPageResult :=
  let desc :=
    ((page_versions.filter fun e => e.1.1 = blknum && e.1.2 ≤ lsn).map
      fun e => (e.1.2, e.2)).reverse
  match scan_page_versions desc [] (some lsn) with
  | none => .errNoVersion
  | some (recs, page_img, need_base_image_lsn) =>
    let records := recs.reverse
    match need_base_image_lsn with
    | some _ =>
      if records.isEmpty then .zeroPage
      else .errNoBaseImage
    | none =>
      match records with
      | [] =>
        match page_img with
        | some img => .page img
        | none => .zeroPage
      | r0 :: rest =>
        if page_img.isNone && !r0.will_init then .zeroPage
        else .redoCall page_img (r0 :: rest)

/-- Claim C3 (code behaviour at the failing input): the general read path
(`reconstruct_value`) does fail when the state has no base image and either no
records or a non-`will_init` oldest record, and the in-memory layer also fails
on a non-`will_init` oldest record — but when an in-memory layer holds no
version at all for the requested block and LSN (no base image, no records),
`InMemoryLayer::get_page_at_lsn` returns the 8 KiB zero page with a warning
instead of an error, contradicting the claim's uniform-error requirement. -/
theorem reconstruct_error_vs_zero_page_c3 :
    reconstruct_value { records := [], img := none } = .baseImageNotFound ∧
    reconstruct_value { records := [(10, { will_init := false })], img := none } =
      .baseImageNotFound ∧
    get_page_at_lsn
      [((0, 5), { page_image := none, record := some { will_init := false } })]
      0 10 = .errNoBaseImage ∧
    get_page_at_lsn [] 0 10 = .zeroPage := by
  refine ⟨rfl, rfl, rfl, rfl⟩

/- ========== Metadata update (update_disk_consistent_lsn, C6) =============== -/

/-- How a call to `update_disk_consistent_lsn` ends: the assertion
`disk_consistent_lsn > old_disk_consistent_lsn` fails, `save_metadata` fails
(an I/O error is propagated), or the call succeeds. -/
inductive DclError where
  | assertionFailure
  | saveMetadataFailed
deriving DecidableEq, Repr

/-- Result of `update_disk_consistent_lsn`: the in-memory
`disk_consistent_lsn` after the call, and the error if any. -/
structure DclOutcome where
  mem_disk_consistent_lsn : Nat
  err : Option DclError
deriving DecidableEq, Repr

/-- `LayeredTimeline::update_disk_consistent_lsn`: when the new LSN differs
from the stored one, assert that it advances, write and fsync the metadata
file carrying the new value (`save_metadata`, whose success is the `save_ok`
parameter), and only then store the new value into the in-memory
`disk_consistent_lsn`. -/
def update_disk_consistent_lsn (old_disk_consistent_lsn disk_consistent_lsn : Nat)
    (save_ok : Bool) : DclOutcome :=
  if disk_consistent_lsn ≠ old_disk_consistent_lsn then
    if ¬ disk_consistent_lsn > old_disk_consistent_lsn then
      { mem_disk_consistent_lsn := old_disk_consistent_lsn, err := some .assertionFailure }
    else if ¬ save_ok then
      { mem_disk_consistent_lsn := old_disk_consistent_lsn, err := some .saveMetadataFailed }
    else
      { mem_disk_consistent_lsn := disk_consistent_lsn, err := none }
  else
    { mem_disk_consistent_lsn := old_disk_consistent_lsn, err := none }

/-- Claim C6: `update_disk_consistent_lsn` changes the in-memory
`disk_consistent_lsn` only to a strictly greater value and only after the
metadata save succeeded; a non-advancing distinct value is an assertion
failure, and when saving the metadata fails the in-memory value is left
unchanged. -/
theorem disk_consistent_lsn_update_c6 (old_lsn new_lsn : Nat) (save_ok : Bool) :
    ((update_disk_consistent_lsn old_lsn new_lsn save_ok).mem_disk_consistent_lsn ≠ old_lsn →
      (update_disk_consistent_lsn old_lsn new_lsn save_ok).mem_disk_consistent_lsn = new_lsn ∧
        old_lsn < new_lsn ∧ save_ok = true ∧
        (update_disk_consistent_lsn old_lsn new_lsn save_ok).err = none) ∧
    (new_lsn ≠ old_lsn → ¬ old_lsn < new_lsn →
      update_disk_consistent_lsn old_lsn new_lsn save_ok =
        { mem_disk_consistent_lsn := old_lsn, err := some .assertionFailure }) ∧
    (save_ok = false →
      (update_disk_consistent_lsn old_lsn new_lsn save_ok).mem_disk_consistent_lsn = old_lsn) := by
  unfold update_disk_consistent_lsn
  split_ifs with h1 h2 h3 <;> simp_all

theorem disk_consistent_lsn_update_c6_witness :
    ((update_disk_consistent_lsn 5 9 true).mem_disk_consistent_lsn ≠ 5 ∧
      ((update_disk_consistent_lsn 5 9 true).mem_disk_consistent_lsn = 9 ∧
        5 < 9 ∧ True ∧ (update_disk_consistent_lsn 5 9 true).err = none)) ∧
    (update_disk_consistent_lsn 9 5 true =
      { mem_disk_consistent_lsn := 9, err := some .assertionFailure }) ∧
    (update_disk_consistent_lsn 5 9 false).mem_disk_consistent_lsn = 5 :=
  ⟨⟨by decide,
    by
      have h := (disk_consistent_lsn_update_c6 5 9 true).1 (by decide)
      exact ⟨h.1, h.2.1, trivial, h.2.2.2⟩⟩,
   (disk_consistent_lsn_update_c6 9 5 true).2.1 (by decide) (by decide),
   (disk_consistent_lsn_update_c6 5 9 false).2.2 rfl⟩

/- ================= Freezing the open layer (C8) ============================ -/

/-- The in-memory layer as the freeze path sees it: its inclusive start LSN
and, once frozen, its exclusive end LSN.  `freeze end_lsn` (spec 4.B:
"end_lsn becomes the layer's exclusive LSN upper bound"; `InMemoryLayer`
matching this `timeline.rs` is not among the provided sources) records the
bound; `lsn_range_end` of an open layer is unbounded (`u64::MAX`,
represented as `2 ^ 64 - 1`). -/
structure InMemLayerM where
  start_lsn : Nat
  frozen_end : Option Nat
deriving DecidableEq, Repr

def freeze_layer (l : InMemLayerM) (end_lsn : Nat) : InMemLayerM :=
  { l with frozen_end := some end_lsn }

def lsn_range_end (l : InMemLayerM) : Nat :=
  match l.frozen_end with
  | some e => e
  | none => 2 ^ 64 - 1

/-- The fields of `LayerMap` touched by `freeze_inmem_layer`. -/
structure FreezeLayerMapM where
  open_layer : Option InMemLayerM
  frozen_layers : List InMemLayerM
  next_open_layer_at : Option Nat
deriving DecidableEq, Repr

/-- The timeline state touched by `freeze_inmem_layer`. -/
structure FreezeTimelineM where
  layers : FreezeLayerMapM
  last_record_lsn : Nat
  last_freeze_at : Nat
deriving DecidableEq, Repr

/-- `LayeredTimeline::freeze_inmem_layer`: when an open layer exists, freeze
it at `end_lsn = last_record_lsn + 1`, push it to the back of
`frozen_layers`, clear `open_layer`, set `next_open_layer_at = end_lsn` and
store `end_lsn` into `last_freeze_at`; otherwise do nothing. -/
def freeze_inmem_layer (s : FreezeTimelineM) : FreezeTimelineM :=
  match s.layers.open_layer with
  | none => s
  | some open_layer =>
    { s with
        layers :=
          { open_layer := none,
            frozen_layers :=
              s.layers.frozen_layers ++ [freeze_layer open_layer (s.last_record_lsn + 1)],
            next_open_layer_at := some (s.last_record_lsn + 1) },
        last_freeze_at := s.last_record_lsn + 1 }

/-- Claim C8: with an open layer present, `freeze_inmem_layer` moves it
(frozen with exclusive `end_lsn = last_record_lsn + 1`) to the back of
`frozen_layers`, clears `open_layer`, sets `next_open_layer_at = end_lsn`
and updates `last_freeze_at`; afterwards `next_open_layer_at` equals the
`lsn_range.end` of the newest frozen layer. -/
theorem freeze_inmem_layer_c8 (s : FreezeTimelineM) (ol : InMemLayerM)
    (hopen : s.layers.open_layer = some ol) :
    (freeze_inmem_layer s).layers.frozen_layers =
      s.layers.frozen_layers ++ [freeze_layer ol (s.last_record_lsn + 1)] ∧
    (freeze_inmem_layer s).layers.open_layer = none ∧
    (freeze_inmem_layer s).layers.next_open_layer_at = some (s.last_record_lsn + 1) ∧
    (freeze_inmem_layer s).last_freeze_at = s.last_record_lsn + 1 ∧
    ((freeze_inmem_layer s).layers.frozen_layers.getLast?.map lsn_range_end) =
      (freeze_inmem_layer s).layers.next_open_layer_at := by
  unfold freeze_inmem_layer
  rw [hopen]
  refine ⟨rfl, rfl, rfl, rfl, ?_⟩
  simp [List.getLast?_append, freeze_layer, lsn_range_end]

/-- A concrete freeze state: one open layer starting at 11, one already
frozen layer `[5, 11)`, `last_record_lsn = 20`. -/
def freezeWitnessState : FreezeTimelineM :=
  { layers :=
      { open_layer := some { start_lsn := 11, frozen_end := none },
        frozen_layers := [{ start_lsn := 5, frozen_end := some 11 }],
        next_open_layer_at := none },
    last_record_lsn := 20,
    last_freeze_at := 11 }

theorem freeze_inmem_layer_c8_witness :
    freezeWitnessState.layers.open_layer = some { start_lsn := 11, frozen_end := none } ∧
    ((freeze_inmem_layer freezeWitnessState).layers.frozen_layers =
      freezeWitnessState.layers.frozen_layers ++
        [freeze_layer { start_lsn := 11, frozen_end := none }
          (freezeWitnessState.last_record_lsn + 1)] ∧
    (freeze_inmem_layer freezeWitnessState).layers.open_layer = none ∧
    (freeze_inmem_layer freezeWitnessState).layers.next_open_layer_at =
      some (freezeWitnessState.last_record_lsn + 1) ∧
    (freeze_inmem_layer freezeWitnessState).last_freeze_at =
      freezeWitnessState.last_record_lsn + 1 ∧
    ((freeze_inmem_layer freezeWitnessState).layers.frozen_layers.getLast?.map lsn_range_end) =
      (freeze_inmem_layer freezeWitnessState).layers.next_open_layer_at) :=
  ⟨rfl, freeze_inmem_layer_c8 freezeWitnessState _ rfl⟩

/- ========= Layer traversal loop (get_reconstruct_data, C9) ================= -/

/-- The result type of `Layer::get_value_reconstruct_data` (spec 4.A). -/
inductive ValueReconstructResult where
  | Complete
  | Continue
  | Missing
deriving DecidableEq, Repr

/-- One timeline of the ancestor chain as the traversal loop of
`get_reconstruct_data` sees it, for a fixed key: its fork LSN, and an oracle
`consult` standing for the body that takes the layer-map read lock and checks
the open layer, the frozen layers newest first and `layers.search(key,
cont_lsn)`.  `consult cont_lsn` returns `none` when no layer qualifies, and
otherwise the chosen layer's `lsn_floor` (already combined with
`max(cached_lsn + 1, start_lsn)`) together with the
`get_value_reconstruct_data` result. -/
structure TraversalTimeline where
  ancestor_lsn : Nat
  consult : Nat → Option (Nat × ValueReconstructResult)

/-- The loop state of `get_reconstruct_data`: the current timeline followed by
its ancestor chain, the progress guard `prev_lsn`, the continuation LSN, the
last layer result and the cached-image LSN (`Lsn(0)` when none). -/
structure TraversalState where
  timelines : List TraversalTimeline
  prev_lsn : Nat
  cont_lsn : Nat
  result : ValueReconstructResult
  cached_lsn : Nat

/-- The ways the traversal loop exits. -/
inductive TraversalOutcome where
  | complete
  | cacheHit
  | noProgress
  | missing
  | ancestorUnavailable
deriving DecidableEq, Repr

/-- Wrapping `u64` decrement, faithful to `Lsn(cont_lsn.0 - 1)`. -/
def lsn_wrapping_sub_one (n : Nat) : Nat :=
  if n = 0 then 2 ^ 64 - 1 else n - 1

/-- One iteration of the `'outer: loop` of
`LayeredTimeline::get_reconstruct_data`: dispatch on the last result, check
the cached-image stop and the no-progress guard, descend into the ancestor
when `cont_lsn - 1 ≤ ancestor_lsn` (failing when there is none, as
`get_ancestor_timeline` does), otherwise consult the current timeline's
layers; with no candidate, move to the ancestor fork point or report
`Missing`.  The empty `timelines` case cannot arise from `traversal_init`,
which always carries the current timeline. -/
def traversal_step (s : TraversalState) : TraversalOutcome ⊕ TraversalState :=
  match s.result with
  | .Complete => .inl .complete
  | .Missing => .inl .missing
  | .Continue =>
    if s.cont_lsn = s.cached_lsn + 1 then .inl .cacheHit
    else if s.prev_lsn ≤ s.cont_lsn then .inl .noProgress
    else
      match s.timelines with
      | [] => .inl .ancestorUnavailable
      | tl :: rest =>
        if lsn_wrapping_sub_one s.cont_lsn ≤ tl.ancestor_lsn then
          match rest with
          | [] => .inl .ancestorUnavailable
          | _ :: _ => .inr { s with timelines := rest, prev_lsn := 2 ^ 64 - 1 }
        else
          match tl.consult s.cont_lsn with
          | some (lsn_floor, res) =>
            .inr { s with prev_lsn := s.cont_lsn, cont_lsn := lsn_floor, result := res }
          | none =>
            match rest with
            | _ :: _ =>
              .inr { s with prev_lsn := s.cont_lsn, cont_lsn := tl.ancestor_lsn + 1,
                            result := .Continue }
            | [] => .inr { s with prev_lsn := s.cont_lsn, result := .Missing }

/-- Iterate `traversal_step` at most `n` times, stopping at the first exit. -/
def traversal_run : Nat → TraversalState → TraversalOutcome ⊕ TraversalState
  | 0, s => .inr s
  | n + 1, s =>
    match traversal_step s with
    | .inl o => .inl o
    | .inr s2 => traversal_run n s2

/-- The initial loop state of `get_reconstruct_data`: `prev_lsn = u64::MAX`,
`cont_lsn = request_lsn + 1`, `result = Continue`. -/
def traversal_init (timelines : List TraversalTimeline)
    (request_lsn cached_lsn : Nat) : TraversalState :=
  { timelines := timelines, prev_lsn := 2 ^ 64 - 1, cont_lsn := request_lsn + 1,
    result := .Continue, cached_lsn := cached_lsn }

theorem traversal_step_nil (s : TraversalState) (h : s.timelines = []) :
    ∃ o, traversal_step s = .inl o := by
  rcases s with ⟨tls, prev, cont, res, cached⟩
  simp only at h
  subst h
  cases res
  · exact ⟨.complete, rfl⟩
  · by_cases hcache : cont = cached + 1
    · exact ⟨.cacheHit, by simp only [traversal_step]; rw [if_pos hcache]⟩
    · by_cases hprev : prev ≤ cont
      · exact ⟨.noProgress, by simp only [traversal_step]; rw [if_neg hcache, if_pos hprev]⟩
      · exact ⟨.ancestorUnavailable,
          by simp only [traversal_step]; rw [if_neg hcache, if_neg hprev]⟩
  · exact ⟨.missing, rfl⟩

theorem traversal_step_decreases (s s2 : TraversalState)
    (h : traversal_step s = .inr s2) :
    s2.timelines.length < s.timelines.length ∨
      (s2.timelines.length = s.timelines.length ∧ s2.prev_lsn < s.prev_lsn) := by
  rcases s with ⟨tls, prev, cont, res, cached⟩
  cases res
  · simp [traversal_step] at h
  · simp only [traversal_step] at h
    by_cases hcache : cont = cached + 1
    · rw [if_pos hcache] at h
      exact absurd h (by simp)
    rw [if_neg hcache] at h
    by_cases hprev : prev ≤ cont
    · rw [if_pos hprev] at h
      exact absurd h (by simp)
    rw [if_neg hprev] at h
    match tls, h with
    | [], h => exact absurd h (by simp)
    | tl :: rest, h =>
      dsimp only at h ⊢
      by_cases hanc : lsn_wrapping_sub_one cont ≤ tl.ancestor_lsn
      · rw [if_pos hanc] at h
        match rest, h with
        | [], h => exact absurd h (by simp)
        | r :: rs, h =>
          obtain rfl := Sum.inr.inj h
          left
          exact Nat.lt_succ_self _
      · rw [if_neg hanc] at h
        cases hcons : tl.consult cont with
        | some pair =>
          obtain ⟨lsn_floor, res2⟩ := pair
          rw [hcons] at h
          obtain rfl := Sum.inr.inj h
          right
          exact ⟨rfl, Nat.lt_of_not_le hprev⟩
        | none =>
          rw [hcons] at h
          match rest, h with
          | r :: rs, h =>
            obtain rfl := Sum.inr.inj h
            right
            exact ⟨rfl, Nat.lt_of_not_le hprev⟩
          | [], h =>
            obtain rfl := Sum.inr.inj h
            right
            exact ⟨rfl, Nat.lt_of_not_le hprev⟩
  · simp [traversal_step] at h

theorem traversal_run_terminates_aux :
    ∀ (k : Nat), ∀ (p : Nat), ∀ s : TraversalState,
      s.timelines.length ≤ k → s.prev_lsn ≤ p →
        ∃ n o, traversal_run n s = .inl o := by
  intro k
  induction k with
  | zero =>
    intro p s hk _
    obtain ⟨o, ho⟩ := traversal_step_nil s (List.length_eq_zero.mp (Nat.le_zero.mp hk))
    exact ⟨1, o, by simp [traversal_run, ho]⟩
  | succ k ih =>
    intro p
    induction p using Nat.strong_induction_on with
    | _ p ihp =>
      intro s hk hp
      match hstep : traversal_step s with
      | .inl o => exact ⟨1, o, by simp [traversal_run, hstep]⟩
      | .inr s2 =>
        rcases traversal_step_decreases s s2 hstep with hlen | ⟨hlen, hprev⟩
        · obtain ⟨n, o, hn⟩ := ih s2.prev_lsn s2 (by omega) (Nat.le_refl _)
          exact ⟨n + 1, o, by simp [traversal_run, hstep, hn]⟩
        · obtain ⟨n, o, hn⟩ := ihp s2.prev_lsn (by omega) s2 (by omega) (Nat.le_refl _)
          exact ⟨n + 1, o, by simp [traversal_run, hstep, hn]⟩

/-- Claim C9: the layer-traversal loop of `get_reconstruct_data` terminates
for every request and every finite ancestor chain, whatever the layers
return: after finitely many iterations it exits with one of the loop
outcomes, because every `Continue` iteration either strictly decreases the
progress guard (the loop fails whenever `prev_lsn ≤ cont_lsn`) or switches
to the parent timeline, shortening the remaining ancestor chain. -/
theorem traversal_terminates_c9 (timelines : List TraversalTimeline)
    (request_lsn cached_lsn : Nat) :
    ∃ n o, traversal_run n (traversal_init timelines request_lsn cached_lsn) = .inl o :=
  traversal_run_terminates_aux
    (traversal_init timelines request_lsn cached_lsn).timelines.length
    (traversal_init timelines request_lsn cached_lsn).prev_lsn
    (traversal_init timelines request_lsn cached_lsn)
    (Nat.le_refl _) (Nat.le_refl _)

/- ================= Level-0 compaction (compact_level0, C5) ================= -/

/-- A level-0 delta layer as `compact_level0` sees it: its half-open LSN
range and the `(key, lsn)` sequence yielded by its iterator (values and sizes
abstracted away). -/
structure L0Delta where
  lsn_start : Nat
  lsn_end : Nat
  entries : List (Nat × Nat)
deriving DecidableEq, Repr

/-- The `kmerge_by` comparator of `compact_level0`: `match a_key.cmp(b_key)
{ Less => true, Equal => a_lsn <= b_lsn, Greater => false }`. -/
def keyLsnLE (a b : Nat × Nat) : Bool :=
  match compare a.1 b.1 with
  | .lt => true
  | .eq => decide (a.2 ≤ b.2)
  | .gt => false

/-- Two-way stable merge by `keyLsnLE`, written with a fuel argument (the sum
of the lengths at entry) so that it is structurally recursive. -/
def merge_values_fuel : Nat → List (Nat × Nat) → List (Nat × Nat) → List (Nat × Nat)
  | 0, xs, ys => xs ++ ys
  | _ + 1, [], ys => ys
  | _ + 1, x :: xs, [] => x :: xs
  | fuel + 1, x :: xs, y :: ys =>
    if keyLsnLE x y then x :: merge_values_fuel fuel xs (y :: ys)
    else y :: merge_values_fuel fuel (x :: xs) ys

def merge_values (xs ys : List (Nat × Nat)) : List (Nat × Nat) :=
  merge_values_fuel (xs.length + ys.length) xs ys

/-- The k-way merge (`kmerge_by`) of the iterators of the layers being
compacted, realized as a fold of two-way merges. -/
def kmerge_values (ls : List (List (Nat × Nat))) : List (Nat × Nat) :=
  ls.foldr merge_values []

/-- The inner loop gathering `deltas_to_compact`: keep taking layers while
each one's `lsn_range.start` equals the previous one's `lsn_range.end`. -/
def take_contiguous_go : Nat → List L0Delta → List L0Delta
  | _, [] => []
  | prev_lsn_end, l :: ls =>
    if l.lsn_start = prev_lsn_end then l :: take_contiguous_go l.lsn_end ls else []

/-- Start with the oldest sorted level-0 delta and collect the contiguous
sequence, as `compact_level0` does. -/
def take_contiguous : List L0Delta → List L0Delta
  | [] => []
  | first :: rest => first :: take_contiguous_go first.lsn_end rest

instance : DecidableRel (fun a b : L0Delta => a.lsn_start ≤ b.lsn_start) :=
  fun _ _ => Nat.decLe _ _

instance : IsTotal L0Delta (fun a b => a.lsn_start ≤ b.lsn_start) :=
  ⟨fun _ _ => Nat.le_total _ _⟩

instance : IsTrans L0Delta (fun a b => a.lsn_start ≤ b.lsn_start) :=
  ⟨fun _ _ _ h1 h2 => Nat.le_trans h1 h2⟩

/-- `level0_deltas.sort_by_key(lsn_range.start)` (a stable sort). -/
def sort_by_lsn_start (deltas : List L0Delta) : List L0Delta :=
  List.insertionSort (fun a b => a.lsn_start ≤ b.lsn_start) deltas

/-- `LayeredTimeline::compact_level0`: no compaction below the threshold (or
with no level-0 deltas at all); otherwise sort by `lsn_range.start`, gather
the contiguous sequence starting at the oldest file, and merge their entries
with the `(key, lsn)` comparator.  The result is the compacted input layers
(removed from map and disk at the end of the function) together with the
merged `(key, lsn)` stream that the new delta files are written from; the
splitting of that stream into files is not covered by the claims and is not
modelled. -/
def compact_level0 (compaction_threshold : Nat) (level0_deltas : List L0Delta) :
    Option (List L0Delta × List (Nat × Nat)) :=
  if level0_deltas.isEmpty || decide (level0_deltas.length < compaction_threshold) then
    none
  else
    some (take_contiguous (sort_by_lsn_start level0_deltas),
      kmerge_values ((take_contiguous (sort_by_lsn_start level0_deltas)).map L0Delta.entries))

/-- The spec's wording of the gathering step: consecutive layers are
contiguous when each one's `lsn_range.start` equals the previous one's
`lsn_range.end`. -/
def lsn_contiguous (ls : List L0Delta) : Prop :=
  List.Chain' (fun a b => b.lsn_start = a.lsn_end) ls

theorem keyLsnLE_eq_true_iff (a b : Nat × Nat) :
    keyLsnLE a b = true ↔ a.1 < b.1 ∨ (a.1 = b.1 ∧ a.2 ≤ b.2) := by
  unfold keyLsnLE
  rcases h : compare a.1 b.1 with - | - | -
  · have := Nat.compare_eq_lt.mp h
    simp [this]
  · have := Nat.compare_eq_eq.mp h
    simp [this]
  · have := Nat.compare_eq_gt.mp h
    simp
    omega

theorem keyLsnLE_total (a b : Nat × Nat) :
    keyLsnLE a b = true ∨ keyLsnLE b a = true := by
  rw [keyLsnLE_eq_true_iff, keyLsnLE_eq_true_iff]
  omega

theorem merge_values_fuel_head (fuel : Nat) (xs ys : List (Nat × Nat)) :
    (merge_values_fuel fuel xs ys).head? = xs.head? ∨
      (merge_values_fuel fuel xs ys).head? = ys.head? := by
  match fuel, xs, ys with
  | 0, [], ys => right; rfl
  | 0, x :: xs, ys => left; rfl
  | _ + 1, [], ys => right; rfl
  | _ + 1, x :: xs, [] => left; rfl
  | fuel + 1, x :: xs, y :: ys =>
    simp only [merge_values_fuel]
    split_ifs
    · left; rfl
    · right; rfl

theorem merge_values_fuel_perm (fuel : Nat) :
    ∀ xs ys, (merge_values_fuel fuel xs ys).Perm (xs ++ ys) := by
  induction fuel with
  | zero => intro xs ys; exact List.Perm.refl _
  | succ fuel ih =>
    intro xs ys
    match xs, ys with
    | [], ys => simp [merge_values_fuel]
    | x :: xs, [] => simp [merge_values_fuel]
    | x :: xs, y :: ys =>
      simp only [merge_values_fuel]
      split_ifs with h
      · exact (ih xs (y :: ys)).cons x
      · exact ((ih (x :: xs) ys).cons y).trans List.perm_middle.symm

theorem merge_values_fuel_sorted :
    ∀ fuel xs ys, xs.length + ys.length ≤ fuel →
      List.Chain' (fun a b => keyLsnLE a b = true) xs →
      List.Chain' (fun a b => keyLsnLE a b = true) ys →
      List.Chain' (fun a b => keyLsnLE a b = true) (merge_values_fuel fuel xs ys) := by
  intro fuel
  induction fuel with
  | zero =>
    intro xs ys hlen hx hy
    match xs, ys with
    | [], [] => simp [merge_values_fuel]
    | [], y :: ys => simp at hlen
    | x :: xs, ys => simp at hlen
  | succ fuel ih =>
    intro xs ys hlen hx hy
    match xs, ys with
    | [], ys => simpa [merge_values_fuel] using hy
    | x :: xs, [] => simpa [merge_values_fuel] using hx
    | x :: xs, y :: ys =>
      simp only [merge_values_fuel]
      rcases List.chain'_cons'.mp hx with ⟨hxhead, hxtail⟩
      rcases List.chain'_cons'.mp hy with ⟨hyhead, hytail⟩
      split_ifs with hle
      · refine List.chain'_cons'.mpr ⟨?_, ?_⟩
        · intro b hb
          rcases merge_values_fuel_head fuel xs (y :: ys) with hh | hh
          · rw [hh] at hb
            exact hxhead b hb
          · rw [hh] at hb
            simp only [List.head?_cons, Option.mem_def, Option.some.injEq] at hb
            subst hb
            exact hle
        · refine ih xs (y :: ys) ?_ hxtail hy
          simp only [List.length_cons] at hlen ⊢
          omega
      · have hyx : keyLsnLE y x = true :=
          (keyLsnLE_total x y).resolve_left (by simpa using hle)
        refine List.chain'_cons'.mpr ⟨?_, ?_⟩
        · intro b hb
          rcases merge_values_fuel_head fuel (x :: xs) ys with hh | hh
          · rw [hh] at hb
            simp only [List.head?_cons, Option.mem_def, Option.some.injEq] at hb
            subst hb
            exact hyx
          · rw [hh] at hb
            exact hyhead b hb
        · refine ih (x :: xs) ys ?_ hx hytail
          simp only [List.length_cons] at hlen ⊢
          omega

theorem kmerge_values_sorted (ls : List (List (Nat × Nat)))
    (h : ∀ l ∈ ls, List.Chain' (fun a b => keyLsnLE a b = true) l) :
    List.Chain' (fun a b => keyLsnLE a b = true) (kmerge_values ls) := by
  induction ls with
  | nil => exact List.chain'_nil
  | cons l ls ih =>
    have hrec := ih fun x hx => h x (List.mem_cons_of_mem l hx)
    have := merge_values_fuel_sorted (l.length + (kmerge_values ls).length)
      l (kmerge_values ls) (Nat.le_refl _) (h l (List.mem_cons_self l ls)) hrec
    simpa [kmerge_values, merge_values] using this

theorem kmerge_values_perm (ls : List (List (Nat × Nat))) :
    (kmerge_values ls).Perm ls.flatten := by
  induction ls with
  | nil => simp [kmerge_values]
  | cons l ls ih =>
    have h1 : (kmerge_values (l :: ls)).Perm (l ++ kmerge_values ls) :=
      merge_values_fuel_perm _ l (kmerge_values ls)
    have h2 : (l ++ kmerge_values ls).Perm (l ++ ls.flatten) :=
      List.Perm.append_left l ih
    simpa using h1.trans h2

theorem take_contiguous_go_spec :
    ∀ (ls : List L0Delta) (prev : Nat),
      (∃ t, take_contiguous_go prev ls ++ t = ls) ∧
      List.Chain' (fun a b => b.lsn_start = a.lsn_end) (take_contiguous_go prev ls) ∧
      (∀ x ∈ (take_contiguous_go prev ls).head?, x.lsn_start = prev) := by
  intro ls
  induction ls with
  | nil =>
    intro prev
    exact ⟨⟨[], rfl⟩, List.chain'_nil, by simp [take_contiguous_go]⟩
  | cons l ls ih =>
    intro prev
    simp only [take_contiguous_go]
    split_ifs with hstart
    · obtain ⟨⟨t, ht⟩, hchain, hhead⟩ := ih l.lsn_end
      refine ⟨⟨t, by rw [List.cons_append, ht]⟩, ?_, ?_⟩
      · exact List.chain'_cons'.mpr ⟨hhead, hchain⟩
      · simp [hstart]
    · exact ⟨⟨l :: ls, rfl⟩, List.chain'_nil, by simp⟩

theorem take_contiguous_prefix_of (l : List L0Delta) :
    ∃ t, take_contiguous l ++ t = l := by
  match l with
  | [] => exact ⟨[], rfl⟩
  | a :: rest =>
    obtain ⟨⟨t, ht⟩, -, -⟩ := take_contiguous_go_spec rest a.lsn_end
    exact ⟨t, by simp only [take_contiguous, List.cons_append, ht]⟩

theorem take_contiguous_chain (l : List L0Delta) :
    lsn_contiguous (take_contiguous l) := by
  match l with
  | [] => exact List.chain'_nil
  | a :: rest =>
    obtain ⟨-, hchain, hhead⟩ := take_contiguous_go_spec rest a.lsn_end
    exact List.chain'_cons'.mpr ⟨hhead, hchain⟩

theorem take_contiguous_go_maximal :
    ∀ (p : List L0Delta) (prev : Nat) (ls : List L0Delta),
      (∃ t, p ++ t = ls) →
      (∀ q ∈ p.head?, q.lsn_start = prev) →
      List.Chain' (fun a b => b.lsn_start = a.lsn_end) p →
      p.length ≤ (take_contiguous_go prev ls).length := by
  intro p
  induction p with
  | nil =>
    intro prev ls _ _ _
    exact Nat.zero_le _
  | cons q p ih =>
    rintro prev ls ⟨t, ht⟩ hhead hchain
    match ls, ht with
    | a :: ls2, ht =>
      injection ht with h1 h2
      subst h1
      have hq : q.lsn_start = prev := hhead q (by simp)
      rcases List.chain'_cons'.mp hchain with ⟨hph, hpc⟩
      have hrec := ih q.lsn_end ls2 ⟨t, h2⟩ hph hpc
      simp only [take_contiguous_go, if_pos hq, List.length_cons]
      omega

theorem take_contiguous_maximal (l p : List L0Delta)
    (hp : ∃ t, p ++ t = l) (hchain : lsn_contiguous p) :
    p.length ≤ (take_contiguous l).length := by
  match p, hp with
  | [], _ => exact Nat.zero_le _
  | q :: p2, ⟨t, ht⟩ =>
    match l, ht with
    | a :: l2, ht =>
      injection ht with h1 h2
      subst h1
      rcases List.chain'_cons'.mp hchain with ⟨hph, hpc⟩
      have hrec := take_contiguous_go_maximal p2 q.lsn_end l2 ⟨t, h2⟩ hph hpc
      simp only [take_contiguous, List.length_cons]
      omega

/-- Claim C5: `compact_level0` performs no compaction with fewer than
`compaction_threshold` level-0 deltas; otherwise it compacts exactly the
longest contiguous prefix (each layer's `lsn_range.start` equal to the
previous one's `lsn_range.end`) of the level-0 deltas sorted by
`lsn_range.start`, and merges the compacted layers' entries into a single
sequence ascending in `(key, lsn)`, equal keys ordered by ascending LSN (a
permutation of the concatenated inputs). -/
theorem compact_level0_c5 (compaction_threshold : Nat) (level0_deltas : List L0Delta) :
    (level0_deltas.length < compaction_threshold →
      compact_level0 compaction_threshold level0_deltas = none) ∧
    (level0_deltas ≠ [] → compaction_threshold ≤ level0_deltas.length →
      ∃ sel merged, compact_level0 compaction_threshold level0_deltas = some (sel, merged)) ∧
    (∀ sel merged,
      compact_level0 compaction_threshold level0_deltas = some (sel, merged) →
      List.Sorted (fun a b : L0Delta => a.lsn_start ≤ b.lsn_start)
        (sort_by_lsn_start level0_deltas) ∧
      sel ≠ [] ∧
      (∃ t, sel ++ t = sort_by_lsn_start level0_deltas) ∧
      lsn_contiguous sel ∧
      (∀ p, (∃ t, p ++ t = sort_by_lsn_start level0_deltas) → lsn_contiguous p →
        p.length ≤ sel.length) ∧
      ((∀ d ∈ sel, List.Chain' (fun a b => keyLsnLE a b = true) d.entries) →
        List.Chain' (fun a b => keyLsnLE a b = true) merged ∧
        merged.Perm ((sel.map L0Delta.entries).flatten))) := by
  refine ⟨?_, ?_, ?_⟩
  · intro hlt
    simp [compact_level0, hlt]
  · intro hne hge
    refine ⟨take_contiguous (sort_by_lsn_start level0_deltas),
      kmerge_values ((take_contiguous (sort_by_lsn_start level0_deltas)).map L0Delta.entries),
      ?_⟩
    unfold compact_level0
    rw [if_neg]
    simp only [Bool.or_eq_true, decide_eq_true_eq, List.isEmpty_iff, not_or]
    exact ⟨hne, Nat.not_lt_of_le hge⟩
  · intro sel merged hsome
    unfold compact_level0 at hsome
    split_ifs at hsome with hcond
    case _ =>
      have heq := Option.some.inj hsome
      injection heq with hsel hmerged
      subst hsel
      subst hmerged
      have hne : level0_deltas ≠ [] := by
        intro h
        subst h
        simp at hcond
      have hsne : sort_by_lsn_start level0_deltas ≠ [] := by
        intro h
        have hperm :=
          List.perm_insertionSort (fun a b : L0Delta => a.lsn_start ≤ b.lsn_start) level0_deltas
        rw [show List.insertionSort (fun a b : L0Delta => a.lsn_start ≤ b.lsn_start)
              level0_deltas = sort_by_lsn_start level0_deltas from rfl, h] at hperm
        exact hne hperm.symm.eq_nil
      refine ⟨?_, ?_, take_contiguous_prefix_of _, take_contiguous_chain _, ?_, ?_⟩
      · exact List.sorted_insertionSort (fun a b : L0Delta => a.lsn_start ≤ b.lsn_start)
          level0_deltas
      · cases hs : sort_by_lsn_start level0_deltas with
        | nil => exact absurd hs hsne
        | cons a rest => simp [hs, take_contiguous]
      · intro p hp hpc
        exact take_contiguous_maximal _ p hp hpc
      · intro hsorted
        constructor
        · refine kmerge_values_sorted _ ?_
          intro l hl
          rcases List.mem_map.mp hl with ⟨d, hd, rfl⟩
          exact hsorted d hd
        · exact kmerge_values_perm _

/-- Two contiguous level-0 deltas with `(key, lsn)`-sorted entries. -/
def c5d1 : L0Delta := { lsn_start := 0, lsn_end := 10, entries := [(1, 5), (2, 3)] }

def c5d2 : L0Delta := { lsn_start := 10, lsn_end := 20, entries := [(1, 12), (2, 11)] }

theorem compact_level0_c5_witness :
    ([c5d2, c5d1].length < 3 ∧ compact_level0 3 [c5d2, c5d1] = none) ∧
    compact_level0 2 [c5d2, c5d1] =
      some ([c5d1, c5d2], [(1, 5), (1, 12), (2, 3), (2, 11)]) ∧
    (List.Chain' (fun a b => keyLsnLE a b = true) [(1, 5), (1, 12), (2, 3), (2, 11)] ∧
      List.Perm [(1, 5), (1, 12), (2, 3), (2, 11)]
        (([c5d1, c5d2].map L0Delta.entries).flatten)) :=
  ⟨⟨by decide, (compact_level0_c5 3 [c5d2, c5d1]).1 (by decide)⟩,
   by decide,
   ((compact_level0_c5 2 [c5d2, c5d1]).2.2 [c5d1, c5d2]
       [(1, 5), (1, 12), (2, 3), (2, 11)] (by decide)).2.2.2.2.2
     (by
       intro d hd
       fin_cases hd <;>
         simp only [c5d1, c5d2, List.chain'_cons, List.chain'_singleton, and_true] <;>
         decide)⟩

theorem gc_cutoff_monotone_c7_witness :
    gcCexState.latest_gc_cutoff_lsn ≤ (gc gcCexState).1.latest_gc_cutoff_lsn ∧
    (gc gcCexState).1.latest_gc_cutoff_lsn =
      (if gcCexState.latest_gc_cutoff_lsn < gc_new_cutoff gcCexState then gc_new_cutoff gcCexState
       else gcCexState.latest_gc_cutoff_lsn) ∧
    (¬ gcCexState.latest_gc_cutoff_lsn < gc_new_cutoff gcCexState →
      (gc gcCexState).1 = gcCexState ∧ (gc gcCexState).2 = []) :=
  gc_cutoff_monotone_c7 gcCexState
